import Mathlib

/-!
Shallow embedding of the MyCrypto store-provider, HD-wallet discovery and
persistence code, with theorems checking the natural-language specification
against it.
-/

namespace MyCrypto

/-! ### Persistence reducer composition (database slice) -/

/-- Keys of `SCHEMA_BASE` in declaration order, from the base-schema module.
The `LSKeys` enum string values are modelled from the spec (the enum itself
is not part of the embedded sources); `version` and `mtime` are literal. -/
def schemaBaseKeys : List String :=
  ["version", "mtime", "accounts", "addressBook", "assets", "rates",
   "trackedAssets", "contracts", "networks", "notifications", "settings",
   "networkNodes", "userActions"]

/-- The `version` field of `SCHEMA_BASE`. -/
def schemaBaseVersion : String := "v2.0.0"

/-- Modelled from the spec: `legacy.initialState` is not among the embedded
sources; its `version` is the base-schema version. -/
def initialLegacyStateVersion : String := schemaBaseVersion

/-- Name of the persisted slice (`slice.name` in the persistence module). -/
def persistenceSliceName : String := "database"

/-- Keys of the `combineReducers` call building `persistenceReducer`, in
declaration order. The slice `.name` values are modelled from the spec
(the slice modules are not among the embedded sources); `version` is
literal. -/
def persistenceReducerKeys : List String :=
  ["version", "accounts", "assets", "rates", "trackedAssets", "addressBook",
   "contracts", "networks", "notifications", "settings", "userActions"]

/-- The combined persisted database state: a `version` sub-state plus one
sub-state per persisted slice. Sub-state contents are abstracted by `σ`. -/
structure DatabaseState (σ : Type) where
  version : String
  accounts : σ
  assets : σ
  rates : σ
  trackedAssets : σ
  addressBook : σ
  contracts : σ
  networks : σ
  notifications : σ
  settings : σ
  userActions : σ
  deriving Repr, DecidableEq

/-- The `combineReducers` composition of the database slice: every sub-state
is handled by its slice reducer, except `version`, whose reducer ignores
state and action and always returns `initialLegacyState.version`. -/
def persistenceReducer {σ α : Type}
    (accountR assetR ratesR trackedAssetsR contactR contractR networkR
     notificationR settingsR userActionR : σ → α → σ)
    (st : DatabaseState σ) (act : α) : DatabaseState σ :=
  { version := initialLegacyStateVersion
    accounts := accountR st.accounts act
    assets := assetR st.assets act
    rates := ratesR st.rates act
    trackedAssets := trackedAssetsR st.trackedAssets act
    addressBook := contactR st.addressBook act
    contracts := contractR st.contracts act
    networks := networkR st.networks act
    notifications := notificationR st.notifications act
    settings := settingsR st.settings act
    userActions := userActionR st.userActions act }

/-! ### Accounts, the restore cache, delete and restore -/

/-- A raw account asset as created by `addMultipleAccounts`:
`{ uuid, balance: '0', mtime: Date.now() }`. -/
structure RawAccountAsset where
  uuid : String
  balance : String
  mtime : Nat
  deriving Repr, DecidableEq

/-- An account record (`IAccount`). -/
structure IAccount where
  uuid : String
  address : String
  networkId : String
  wallet : Option String
  dPath : String
  assets : List RawAccountAsset
  transactions : List String
  favorite : Bool
  mtime : Nat
  deriving Repr, DecidableEq

/-- Redux actions dispatched by the store provider. -/
inductive StoreAction where
  | addAccounts (accounts : List IAccount)
  | deleteMembership (address : String) (networkId : String)
  deriving Repr, DecidableEq

/-- The restore cache `accountRestore`: a JS object mapping uuid keys to an
account or undefined. A later write shadows an earlier one. -/
abbrev RestoreCache := List (String × Option IAccount)

/-- Object spread update: `{ ...prev, [k]: v }`. -/
def cacheSet (cache : RestoreCache) (k : String) (v : Option IAccount) :
    RestoreCache :=
  (k, v) :: cache

/-- Property read `cache[k]`: both an absent key and a key explicitly set to
undefined read as undefined. -/
def cacheGet (cache : RestoreCache) (k : String) : Option IAccount :=
  match cache.find? (fun p => p.1 == k) with
  | some p => p.2
  | none => none

/-- Lodash `isEmpty` applied to a cache lookup result: true exactly on
undefined, since an account object always has own enumerable keys. -/
def lodashIsEmpty : Option IAccount → Bool
  | none => true
  | some _ => false

/-- Outcome of `restoreDeletedAccount`: dispatched actions, resulting cache
and the thrown error, if any. -/
structure RestoreResult where
  dispatched : List StoreAction
  cache : RestoreCache
  error : Option String
  deriving Repr, DecidableEq

/-- The error message thrown by `restoreDeletedAccount`. -/
def restoreErrorMessage : String :=
  "Unable to restore account! No account with id specified."

/-- `restoreDeletedAccount`: look the account up in the restore cache; when
lodash `isEmpty` holds for the lookup (the lookup is undefined), throw — the
throw aborts before any dispatch or cache write; otherwise dispatch
`addAccounts` with the single account and reset the cache entry at the
account uuid to undefined. -/
def restoreDeletedAccount (cache : RestoreCache) (accountId : String) :
    RestoreResult :=
  match cacheGet cache accountId with
  | none =>
    { dispatched := [], cache := cache, error := some restoreErrorMessage }
  | some account =>
    { dispatched := [StoreAction.addAccounts [account]]
      cache := cacheSet cache account.uuid none
      error := none }

/-- The store-provider state touched by account deletion. -/
structure ProviderState where
  accounts : List IAccount
  dashboardAccounts : List String
  accountRestore : RestoreCache
  deriving Repr, DecidableEq

/-- Modelled from the spec: `deleteAccount` of the accounts hook is not
among the embedded sources; it removes the account from the account store,
keyed by uuid. -/
def deleteAccount (accounts : List IAccount) (account : IAccount) :
    List IAccount :=
  accounts.filter (fun a => a.uuid != account.uuid)

/-- `deleteAccountFromCache`: store the account in the restore cache under
its uuid, delete it from the account store, drop its uuid from the
dashboard-account settings, and dispatch `deleteMembership` for its address
and network. -/
def deleteAccountFromCache (st : ProviderState) (account : IAccount) :
    ProviderState × List StoreAction :=
  ({ accounts := deleteAccount st.accounts account
     dashboardAccounts :=
       st.dashboardAccounts.filter (fun u => u != account.uuid)
     accountRestore := cacheSet st.accountRestore account.uuid (some account) },
   [StoreAction.deleteMembership account.address account.networkId])

/-! ### Decimal strings

Used to model generated uuids and numbered default address-book labels;
the decode function witnesses injectivity. -/

/-- Little-endian decimal digits of a natural number, with explicit fuel. -/
def decDigitsAux : Nat → Nat → List Nat
  | 0, _ => []
  | _ + 1, 0 => []
  | f + 1, n + 1 => ((n + 1) % 10) :: decDigitsAux f ((n + 1) / 10)

/-- Value of a little-endian decimal digit list. -/
def ofDecDigits : List Nat → Nat
  | [] => 0
  | d :: ds => d + 10 * ofDecDigits ds

/-- Decimal digit character. -/
def decDigitChar (d : Nat) : Char := Char.ofNat (48 + d)

/-- Decimal string of a natural number (empty for zero, which never occurs
in generated labels since numbering starts at one). -/
def natToDecString (n : Nat) : String :=
  String.mk (((decDigitsAux n n).map decDigitChar).reverse)

/-- Decode a decimal string back to its value. -/
def decodeDecString (s : String) : Nat :=
  ofDecDigits (s.data.reverse.map (fun c => c.toNat - 48))

/-! ### Contacts and default address-book labels -/

/-- An address-book contact. -/
structure Contact where
  label : String
  address : String
  notes : String
  network : String
  uuid : String
  deriving Repr, DecidableEq

/-- Modelled from the spec: the translation `translateRaw('NO_LABEL')`, the
default placeholder label of an unlabelled contact. -/
def NO_LABEL : String := "No label"

/-- Modelled from the spec: `getContactByAddressAndNetworkId` of the
contacts hook is not among the embedded sources; it finds the contact for
an address on a network. -/
def getContactByAddressAndNetworkId (contacts : List Contact)
    (address networkId : String) : Option Contact :=
  contacts.find? (fun c => c.address == address && c.network == networkId)

/-- Modelled from the spec: `updateContact` of the contacts hook replaces
the stored contact with the matching uuid. -/
def updateContact (contacts : List Contact) (c : Contact) : List Contact :=
  contacts.map (fun x => if x.uuid == c.uuid then c else x)

/-- Modelled from the spec: `createContact` of the contacts hook appends
the new contact to the address book. -/
def createContact (contacts : List Contact) (c : Contact) : List Contact :=
  contacts ++ [c]

/-- Modelled from the spec: `generateUUID` returns a fresh uuid; modelled
deterministically from a seed. -/
def generatedUuid (k : Nat) : String := "generated-" ++ natToDecString k

/-- Display name used in default labels for a possibly-undefined wallet id
(an undefined wallet stringifies). -/
def walletNameOf (wallet : Option String) : String := wallet.getD "undefined"

/-- The i-th candidate default label for a wallet. -/
def defaultLabel (walletName : String) (i : Nat) : String :=
  walletName ++ " Account " ++ natToDecString i

/-- Whether some contact already uses a label. -/
def isLabelUsed (contacts : List Contact) (l : String) : Bool :=
  contacts.any (fun c => c.label == l)

/-- Scan candidate default labels from index `i`, skipping used ones, and
collect `need` unused ones, within `budget` candidates. -/
def collectUnusedLabels (walletName : String) (contacts : List Contact) :
    Nat → Nat → Nat → List String
  | 0, _, _ => []
  | _ + 1, 0, _ => []
  | budget + 1, need + 1, i =>
    if isLabelUsed contacts (defaultLabel walletName i) then
      collectUnusedLabels walletName contacts budget (need + 1) (i + 1)
    else
      defaultLabel walletName i ::
        collectUnusedLabels walletName contacts budget need (i + 1)

/-- Modelled from the spec: `findMultipleNextUnusedDefaultLabels` of the
contact helpers is not among the embedded sources; it returns the next `n`
default labels (numbered from one) not used by any existing contact. The
budget suffices by a counting argument proved below. -/
def findMultipleNextUnusedDefaultLabels (walletName : String) (n : Nat)
    (contacts : List Contact) : List String :=
  collectUnusedLabels walletName contacts (n + contacts.length) n 1

/-- Number of used candidate labels among indices `[i, i + budget)`. -/
def usedCountFrom (walletName : String) (contacts : List Contact) :
    Nat → Nat → Nat
  | _, 0 => 0
  | i, budget + 1 =>
    (if isLabelUsed contacts (defaultLabel walletName i) then 1 else 0) +
      usedCountFrom walletName contacts (i + 1) budget

/-- The list `[i, i + n)`. -/
def rangeList : Nat → Nat → List Nat
  | _, 0 => []
  | i, n + 1 => i :: rangeList (i + 1) n

/-! ### addMultipleAccounts -/

/-- A network, as needed by `getNetworkById`. -/
structure Network where
  id : String
  deriving Repr, DecidableEq

/-- An asset template, as needed by the default-asset lookup. -/
structure AssetTemplate where
  uuid : String
  networkId : String
  deriving Repr, DecidableEq

/-- The `IAddAccount` input of `addMultipleAccounts`. -/
structure IAddAccount where
  address : String
  dPath : String
  deriving Repr, DecidableEq

/-- Modelled from the spec: `getNetworkById` of the network service is not
among the embedded sources; it resolves a network id against the known
networks. -/
def getNetworkById (networkId : String) (networks : List Network) :
    Option Network :=
  networks.find? (fun n => n.id == networkId)

/-- Modelled from the spec: `getAccountByAddressAndNetworkName` of the
accounts hook is not among the embedded sources; it finds an existing
account by address and network. -/
def getAccountByAddressAndNetworkName (accounts : List IAccount)
    (address networkId : String) : Option IAccount :=
  accounts.find? (fun a => a.address == address && a.networkId == networkId)

/-- Modelled from the spec: `getNewDefaultAssetTemplateByNetwork` of the
asset service is not among the embedded sources; it yields the network's
default base-asset template. -/
def getNewDefaultAssetTemplateByNetwork (assets : List AssetTemplate)
    (network : Network) : AssetTemplate :=
  match assets.find? (fun a => a.networkId == network.id) with
  | some a => a
  | none => { uuid := "base-" ++ network.id, networkId := network.id }

/-- Modelled from the spec: `generateDeterministicAddressUUID` derives a
deterministic uuid from the network id and the address. -/
def generateDeterministicAddressUUID (networkId address : String) : String :=
  "uuid-" ++ networkId ++ "-" ++ address

/-- Modelled from the spec: the wallet id of the injected web3 provider
(`getWeb3Config().id`). -/
def web3ConfigId : String := "METAMASK"

/-- The raw account built for one `IAddAccount` input. -/
def mkRawAccount (networkId : String) (walletType : Option String)
    (assetUuid : String) (now : Nat) (a : IAddAccount) : IAccount :=
  { address := a.address
    networkId := networkId
    wallet := walletType
    dPath := a.dPath
    assets := [{ uuid := assetUuid, balance := "0", mtime := now }]
    transactions := []
    favorite := false
    mtime := 0
    uuid := generateDeterministicAddressUUID networkId a.address }

/-- One iteration of the address-book maintenance loop of
`addMultipleAccounts`, for the raw account at position `idx`: the lookup is
against the original contacts (the hook state captured by the closure),
while updates and creations accumulate on the current contacts. -/
def contactStep (origContacts : List Contact) (networkId : String)
    (newLabels : List String) (seed : Nat) (idx : Nat) (ra : IAccount)
    (cur : List Contact) : List Contact :=
  match getContactByAddressAndNetworkId origContacts ra.address networkId with
  | some existing =>
    if existing.label == NO_LABEL then
      updateContact cur { existing with label := newLabels.getD idx "" }
    else cur
  | none =>
    createContact cur
      { label := newLabels.getD idx ""
        address := ra.address
        notes := ""
        network := networkId
        uuid := generatedUuid (seed + idx) }

/-- The address-book maintenance loop over all raw accounts. -/
def contactSteps (origContacts : List Contact) (networkId : String)
    (newLabels : List String) (seed : Nat) :
    Nat → List IAccount → List Contact → List Contact
  | _, [], cur => cur
  | idx, ra :: rest, cur =>
    contactSteps origContacts networkId newLabels seed (idx + 1) rest
      (contactStep origContacts networkId newLabels seed idx ra cur)

/-- The uuid targeted by the maintenance step for a raw account: the uuid
of the found default-labelled contact, if any. -/
def contactTarget (origContacts : List Contact) (networkId : String)
    (ra : IAccount) : Option String :=
  match getContactByAddressAndNetworkId origContacts ra.address networkId with
  | some existing =>
    if existing.label == NO_LABEL then some existing.uuid else none
  | none => none

/-- The contact the maintenance step at position `i` leaves in the address
book for its raw account: the relabelled found contact, the untouched
found contact, or the newly created one. -/
def expectedContact (origContacts : List Contact) (networkId : String)
    (newLabels : List String) (seed : Nat) (i : Nat) (ra : IAccount) :
    Contact :=
  match getContactByAddressAndNetworkId origContacts ra.address networkId with
  | some existing =>
    if existing.label == NO_LABEL then
      { existing with label := newLabels.getD i "" }
    else existing
  | none =>
    { label := newLabels.getD i ""
      address := ra.address
      notes := ""
      network := networkId
      uuid := generatedUuid (seed + i) }

/-- Every original contact uuid is still represented in the current
address book. -/
def coversUuids (orig cur : List Contact) : Prop :=
  ∀ c ∈ orig, ∃ x ∈ cur, x.uuid = c.uuid

/-- The hook state `addMultipleAccounts` reads. -/
structure StoreEnv where
  networks : List Network
  accounts : List IAccount
  assets : List AssetTemplate
  contacts : List Contact
  now : Nat
  uuidSeed : Nat
  deriving Repr, DecidableEq

/-- The outcome of `addMultipleAccounts`: the created raw accounts (none
models the undefined return) and the resulting address book. -/
structure AddAccountsResult where
  created : Option (List IAccount)
  contacts : List Contact
  deriving Repr, DecidableEq

/-- `addMultipleAccounts` from the store provider: resolve the network,
bail out on no network or no inputs, keep only inputs without an existing
account on the network, build raw accounts for them, bail out when none
remain, compute the next unused default labels and run the address-book
maintenance loop, and return the created raw accounts. -/
def addMultipleAccounts (env : StoreEnv) (networkId : String)
    (accountType : Option String) (newAccounts : List IAddAccount) :
    AddAccountsResult :=
  match getNetworkById networkId env.networks with
  | none => { created := none, contacts := env.contacts }
  | some network =>
    if newAccounts.isEmpty then { created := none, contacts := env.contacts }
    else
      let accountsToAdd := newAccounts.filter (fun a =>
        (getAccountByAddressAndNetworkName env.accounts a.address
          networkId).isNone)
      let walletType : Option String :=
        if accountType == some "WEB3" then some web3ConfigId else accountType
      let newAsset := getNewDefaultAssetTemplateByNetwork env.assets network
      let newRawAccounts := accountsToAdd.map
        (mkRawAccount networkId walletType newAsset.uuid env.now)
      match newRawAccounts with
      | [] => { created := none, contacts := env.contacts }
      | ra0 :: rest =>
        let newLabels := findMultipleNextUnusedDefaultLabels
          (walletNameOf ra0.wallet) (ra0 :: rest).length env.contacts
        { created := some (ra0 :: rest)
          contacts := contactSteps env.contacts networkId newLabels
            env.uuidSeed 0 (ra0 :: rest) env.contacts }

/-! ### Assets, totals and fiat values -/

/-- A store asset: an asset instance held by an account, with a balance.
Balances and rates are modelled as integers. -/
structure StoreAsset where
  uuid : String
  balance : Int
  deriving Repr, DecidableEq

/-- A store account as used by the asset selectors. -/
structure StoreAccount where
  uuid : String
  address : String
  networkId : String
  assets : List StoreAsset
  deriving Repr, DecidableEq

/-- One step of the `getTotalByAsset` aggregation: add an asset into the
accumulated dictionary, summing balances for an already-present asset uuid
and inserting a fresh entry otherwise. -/
def addAssetToTotals (dict : List StoreAsset) (a : StoreAsset) :
    List StoreAsset :=
  if dict.any (fun p => p.uuid == a.uuid) then
    dict.map (fun p =>
      if p.uuid == a.uuid then { p with balance := p.balance + a.balance }
      else p)
  else dict ++ [a]

/-- Modelled from the spec: `getTotalByAsset` of the asset service is not
among the embedded sources; it aggregates store assets by asset uuid,
summing balances. -/
def getTotalByAsset (assets : List StoreAsset) : List StoreAsset :=
  assets.foldl addAssetToTotals []

/-- Modelled from the spec: `convertToFiatFromAsset` is not among the
embedded sources; it converts an asset balance at a rate, an undefined rate
counting as zero. -/
def convertToFiatFromAsset (a : StoreAsset) (rate : Option Int) : Int :=
  a.balance * rate.getD 0

/-- `state.assets`: the selected accounts (defaulting to all accounts)
flat-mapped to their asset lists. -/
def assetsOf (accounts : List StoreAccount)
    (selected : Option (List StoreAccount)) : List StoreAsset :=
  (selected.getD accounts).flatMap (fun acc => acc.assets)

/-- `state.totals`: the selected assets aggregated by asset. -/
def totalsOf (accounts : List StoreAccount)
    (selected : Option (List StoreAccount)) : List StoreAsset :=
  getTotalByAsset (assetsOf accounts selected)

/-- `state.totalFiat`: reduce over the aggregated assets, starting from 0,
adding the fiat conversion of each asset at its rate. -/
def totalFiatOf (accounts : List StoreAccount)
    (selected : Option (List StoreAccount))
    (getAssetRate : StoreAsset → Option Int) : Int :=
  (totalsOf accounts selected).foldl
    (fun sum asset => sum + convertToFiatFromAsset asset (getAssetRate asset))
    0

/-- Total balance carried by a given asset uuid in a list of store assets. -/
def uuidBalance (l : List StoreAsset) (u : String) : Int :=
  ((l.filter (fun p => p.uuid == u)).map (fun p => p.balance)).sum

/-! ### HD wallet discovery workers

`hdWallet.slice.ts` is not among the embedded sources (only its test is),
so the saga workers are modelled from the spec as the ordered list of
redux-saga effects they yield. -/

/-- An extended derivation path. -/
structure ExtendedDPath where
  label : String
  value : String
  offset : Nat
  numOfAddresses : Nat
  deriving Repr, DecidableEq

/-- Position of a derived address under its base derivation path. -/
structure DWPathItem where
  baseDPath : ExtendedDPath
  path : String
  index : Nat
  deriving Repr, DecidableEq

/-- A derived deterministic-wallet account, optionally with a balance. -/
structure DWAccountDisplay where
  address : String
  pathItem : DWPathItem
  balance : Option String
  deriving Repr, DecidableEq

/-- A hardware-wallet session, abstracted to the one method the account
worker calls: derive the accounts for a list of extended derivation paths. -/
structure HDWalletSession where
  getMultipleAddresses : List ExtendedDPath → List DWAccountDisplay

/-- Actions of the HD wallet slice dispatched by the workers. -/
inductive HDWalletAction where
  | requestConnection
  | requestConnectionSuccess (asset : String) (network : String)
  | requestAddresses
  | enqueueAccounts (accounts : List DWAccountDisplay)
  | processAccountsQueue
  | updateAccounts (accounts : List DWAccountDisplay) (asset : String)
  deriving Repr, DecidableEq

/-- Redux-saga effects yielded by the HD wallet workers: dispatches (`put`)
and calls into the session, wallet selection or balance service. -/
inductive HDWalletEffect where
  | putAction (action : HDWalletAction)
  | callSelectWallet (walletId : String)
  | callInitializeSession (dpath : Option ExtendedDPath)
  | callSetSession
  | callGetMultipleAddresses (dpaths : List ExtendedDPath)
  | callGetAssetBalance (accounts : List DWAccountDisplay)
  deriving Repr, DecidableEq

/-- Modelled from the spec: `requestConnectionWorker` connects to the
hardware device by selecting the wallet implementation for the walletId,
initializing it with the first derivation path, passing the session to the
setSession callback, dispatching `requestConnection` and finally
`requestConnectionSuccess` with the requested asset and network. -/
def requestConnectionWorker (walletId : String) (dpaths : List ExtendedDPath)
    (asset network : String) : List HDWalletEffect :=
  [HDWalletEffect.callSelectWallet walletId,
   HDWalletEffect.callInitializeSession dpaths.head?,
   HDWalletEffect.callSetSession,
   HDWalletEffect.putAction HDWalletAction.requestConnection,
   HDWalletEffect.putAction
     (HDWalletAction.requestConnectionSuccess asset network)]

/-- Modelled from the spec: `getAccountsWorker` dispatches
`requestAddresses`, derives addresses along the given derivation paths via
the session, dispatches `enqueueAccounts` with the derived accounts and then
`processAccountsQueue` to start balance fetching. -/
def getAccountsWorker (session : HDWalletSession)
    (dpaths : List ExtendedDPath) : List HDWalletEffect :=
  [HDWalletEffect.putAction HDWalletAction.requestAddresses,
   HDWalletEffect.callGetMultipleAddresses dpaths,
   HDWalletEffect.putAction
     (HDWalletAction.enqueueAccounts (session.getMultipleAddresses dpaths)),
   HDWalletEffect.putAction HDWalletAction.processAccountsQueue]

/-- Modelled from the spec: `accountsQueueWorker` batch-fetches balances for
the queued accounts and dispatches `updateAccounts` with the accounts
carrying their fetched balances. `balanceOf` abstracts the balance service
response. -/
def accountsQueueWorker (balanceOf : String → String)
    (queue : List DWAccountDisplay) (asset : String) : List HDWalletEffect :=
  [HDWalletEffect.callGetAssetBalance queue,
   HDWalletEffect.putAction
     (HDWalletAction.updateAccounts
       (queue.map (fun a => { a with balance := some (balanceOf a.address) }))
       asset)]

/-- The account-discovery run: the account worker followed by the queue
worker processing the accounts that were enqueued. -/
def hdDiscoveryRun (session : HDWalletSession) (balanceOf : String → String)
    (dpaths : List ExtendedDPath) (asset : String) : List HDWalletEffect :=
  getAccountsWorker session dpaths ++
    accountsQueueWorker balanceOf (session.getMultipleAddresses dpaths) asset

/-! ### Rehydration saga -/

/-- A redux-persist `REHYDRATE` action as seen by `handleRehydrateSuccess`:
only its `key` matters. -/
structure RehydrateAction where
  key : String
  deriving Repr, DecidableEq

/-- Modelled from the spec: `persist.config` is not among the embedded
sources; `APP_PERSIST_CONFIG.key` is an opaque persistence root key. -/
def appPersistConfigKey : String := "Root"

/-- The initialization effects `handleRehydrateSuccess` can dispatch. -/
inductive InitEffect where
  | trackInit
  | fetchAssets
  | fetchMemberships
  | startRatesPolling
  | fetchHistory
  | startTxPolling
  | fetchENS
  deriving Repr, DecidableEq

/-- `handleRehydrateSuccess`: on a rehydrate action whose key is the app
persist key, dispatch the seven initialization effects in order; otherwise
dispatch nothing. -/
def handleRehydrateSuccess (action : RehydrateAction) : List InitEffect :=
  if action.key = appPersistConfigKey then
    [InitEffect.trackInit, InitEffect.fetchAssets, InitEffect.fetchMemberships,
     InitEffect.startRatesPolling, InitEffect.fetchHistory,
     InitEffect.startTxPolling, InitEffect.fetchENS]
  else []

/-- Concrete store state used by the evaluation witnesses: one known
network, one existing account at address 0x1, one asset template and an
empty address book. -/
def sampleExistingAccount : IAccount :=
  { address := "0x1", networkId := "Ethereum", wallet := none, dPath := "",
    assets := [], transactions := [], favorite := false, mtime := 0,
    uuid := "acc1" }

def sampleEnv : StoreEnv :=
  { networks := [{ id := "Ethereum" }],
    accounts := [sampleExistingAccount],
    assets := [{ uuid := "eth-uuid", networkId := "Ethereum" }],
    contacts := [],
    now := 5,
    uuidSeed := 0 }

/-- Concrete inputs used by the evaluation witnesses: 0x1 collides with the
existing account, 0x2 is fresh. -/
def sampleInputs : List IAddAccount :=
  [{ address := "0x1", dPath := "p1" }, { address := "0x2", dPath := "p2" }]

/-- The raw account expected for the fresh input address. -/
def sampleCreated : IAccount :=
  { address := "0x2", networkId := "Ethereum", wallet := some "LEDGER",
    dPath := "p2",
    assets := [{ uuid := "eth-uuid", balance := "0", mtime := 5 }],
    transactions := [], favorite := false, mtime := 0,
    uuid := generateDeterministicAddressUUID "Ethereum" "0x2" }

/-- Concrete store state with contacts, used by the C4 witness: a
default-labelled contact at 0x2, a labelled contact at 0x3. -/
def sampleContactNoLabel : Contact :=
  { label := "No label", address := "0x2", notes := "",
    network := "Ethereum", uuid := "c2" }

def sampleContactLabelled : Contact :=
  { label := "My contact", address := "0x3", notes := "",
    network := "Ethereum", uuid := "c3" }

def sampleEnvContacts : StoreEnv :=
  { networks := [{ id := "Ethereum" }],
    accounts := [],
    assets := [{ uuid := "eth-uuid", networkId := "Ethereum" }],
    contacts := [sampleContactNoLabel, sampleContactLabelled],
    now := 5,
    uuidSeed := 0 }

/-- Concrete inputs for the C4 witness: a fresh address, one with a
default-labelled contact and one with a labelled contact. -/
def sampleInputsContacts : List IAddAccount :=
  [{ address := "0x1", dPath := "p1" }, { address := "0x2", dPath := "p2" },
   { address := "0x3", dPath := "p3" }]

end MyCrypto

namespace MyCrypto

/-- C8 counterexample: the persistence reducer keys do not match the keys of
`SCHEMA_BASE`: `mtime` is a base-schema key but not a reducer key. -/
theorem persistenceReducer_keys_ne_schemaBase :
    ("mtime" ∈ schemaBaseKeys ∧ "mtime" ∉ persistenceReducerKeys) ∧
    ¬ (∀ k, k ∈ persistenceReducerKeys ↔ k ∈ schemaBaseKeys) := by
  refine ⟨by decide, fun h => ?_⟩
  have := (h "mtime").mpr (by decide)
  exact absurd this (by decide)

/-- C8 (amended): the persisted slice is named `database`; its state is
composed of exactly the sub-states version, accounts, assets, rates,
trackedAssets, addressBook, contracts, networks, notifications, settings
and userActions — the keys of `SCHEMA_BASE` other than `mtime` and
`networkNodes`, whose version is `v2.0.0` — and for every action and every
choice of slice reducers the `version` sub-state of the reducer output is
`initialLegacyState.version`, a constant. -/
theorem persistenceReducer_composition {σ α : Type}
    (accountR assetR ratesR trackedAssetsR contactR contractR networkR
     notificationR settingsR userActionR : σ → α → σ)
    (st : DatabaseState σ) (act : α) :
    persistenceSliceName = "database" ∧
    persistenceReducerKeys.Perm
      (schemaBaseKeys.filter (fun k => !(k == "mtime" || k == "networkNodes"))) ∧
    schemaBaseVersion = "v2.0.0" ∧
    (persistenceReducer accountR assetR ratesR trackedAssetsR contactR
      contractR networkR notificationR settingsR userActionR st act).version =
      initialLegacyStateVersion := by
  refine ⟨rfl, by decide, rfl, rfl⟩

theorem string_data_eq {s t : String} (h : s.data = t.data) : s = t := by
  cases s
  cases t
  congr

theorem string_append_cancel_left {s t u : String} (h : s ++ t = s ++ u) :
    t = u := by
  have hd := congrArg String.data h
  rw [String.data_append, String.data_append] at hd
  have h2 := List.append_cancel_left hd
  cases t
  cases u
  congr

theorem ofDecDigits_decDigitsAux :
    ∀ f n : Nat, n ≤ f → ofDecDigits (decDigitsAux f n) = n := by
  intro f
  induction f with
  | zero =>
    intro n hn
    have : n = 0 := Nat.le_zero.mp hn
    subst this
    rfl
  | succ f ih =>
    intro n hn
    match n with
    | 0 => rfl
    | m + 1 =>
      have hdiv : (m + 1) / 10 ≤ f := by
        have := Nat.div_lt_self (Nat.succ_pos m) (by norm_num : 1 < 10)
        omega
      rw [show decDigitsAux (f + 1) (m + 1) =
        ((m + 1) % 10) :: decDigitsAux f ((m + 1) / 10) from rfl]
      rw [show ofDecDigits (((m + 1) % 10) :: decDigitsAux f ((m + 1) / 10)) =
        (m + 1) % 10 + 10 * ofDecDigits (decDigitsAux f ((m + 1) / 10))
        from rfl]
      rw [ih _ hdiv]
      exact Nat.mod_add_div (m + 1) 10

theorem decDigitsAux_lt_ten :
    ∀ f n d : Nat, d ∈ decDigitsAux f n → d < 10 := by
  intro f
  induction f with
  | zero =>
    intro n d hd
    simp [decDigitsAux] at hd
  | succ f ih =>
    intro n d hd
    match n with
    | 0 => simp [decDigitsAux] at hd
    | m + 1 =>
      rw [show decDigitsAux (f + 1) (m + 1) =
        ((m + 1) % 10) :: decDigitsAux f ((m + 1) / 10) from rfl] at hd
      rcases List.mem_cons.mp hd with rfl | hd'
      · exact Nat.mod_lt _ (by norm_num)
      · exact ih _ _ hd'

theorem decDigitChar_toNat (d : Nat) (hd : d < 10) :
    (decDigitChar d).toNat = 48 + d := by
  have h : ∀ x : Fin 10, (decDigitChar x.val).toNat = 48 + x.val := by decide
  exact h ⟨d, hd⟩

theorem decodeDecString_natToDecString (n : Nat) :
    decodeDecString (natToDecString n) = n := by
  unfold decodeDecString natToDecString
  rw [show (String.mk (((decDigitsAux n n).map decDigitChar).reverse)).data =
    ((decDigitsAux n n).map decDigitChar).reverse from rfl]
  rw [List.reverse_reverse, List.map_map]
  have hcongr : (decDigitsAux n n).map
      ((fun c => c.toNat - 48) ∘ decDigitChar) =
      (decDigitsAux n n).map id := by
    apply List.map_congr_left
    intro d hd
    have := decDigitChar_toNat d (decDigitsAux_lt_ten n n d hd)
    simp [Function.comp, this]
  rw [hcongr, List.map_id]
  exact ofDecDigits_decDigitsAux n n le_rfl

theorem natToDecString_injective {a b : Nat}
    (h : natToDecString a = natToDecString b) : a = b := by
  have h2 := congrArg decodeDecString h
  rwa [decodeDecString_natToDecString, decodeDecString_natToDecString] at h2

theorem defaultLabel_injective (w : String) {i j : Nat}
    (h : defaultLabel w i = defaultLabel w j) : i = j := by
  unfold defaultLabel at h
  exact natToDecString_injective (string_append_cancel_left h)

theorem defaultLabel_ne_noLabel (w : String) (i : Nat) :
    defaultLabel w i ≠ NO_LABEL := by
  intro h
  have hlen := congrArg String.length h
  rw [defaultLabel, String.length_append, String.length_append] at hlen
  have h9 : (" Account " : String).length = 9 := by decide
  have h8 : NO_LABEL.length = 8 := by decide
  rw [h9, h8] at hlen
  omega

theorem isLabelUsed_false_notMem {contacts : List Contact} {l : String}
    (h : isLabelUsed contacts l = false) :
    l ∉ contacts.map (fun c => c.label) := by
  intro hmem
  rcases List.mem_map.mp hmem with ⟨c, hc, hcl⟩
  have : isLabelUsed contacts l = true :=
    List.any_eq_true.mpr ⟨c, hc, by simp [hcl]⟩
  rw [h] at this
  exact Bool.false_ne_true this

theorem collectUnusedLabels_sound (w : String) (contacts : List Contact) :
    ∀ (budget need i : Nat) (l : String),
      l ∈ collectUnusedLabels w contacts budget need i →
      isLabelUsed contacts l = false ∧ ∃ j, i ≤ j ∧ l = defaultLabel w j := by
  intro budget
  induction budget with
  | zero =>
    intro need i l hl
    simp [collectUnusedLabels] at hl
  | succ budget ih =>
    intro need i l hl
    match need with
    | 0 => simp [collectUnusedLabels] at hl
    | m + 1 =>
      rw [collectUnusedLabels] at hl
      by_cases hused : isLabelUsed contacts (defaultLabel w i) = true
      · rw [if_pos hused] at hl
        obtain ⟨h1, j, hj, hl2⟩ := ih (m + 1) (i + 1) l hl
        exact ⟨h1, j, by omega, hl2⟩
      · rw [if_neg hused] at hl
        rcases List.mem_cons.mp hl with rfl | hl'
        · exact ⟨Bool.eq_false_iff.mpr hused, i, le_rfl, rfl⟩
        · obtain ⟨h1, j, hj, hl2⟩ := ih m (i + 1) l hl'
          exact ⟨h1, j, by omega, hl2⟩

theorem collectUnusedLabels_length (w : String) (contacts : List Contact) :
    ∀ (budget need i : Nat),
      usedCountFrom w contacts i budget + need ≤ budget →
      (collectUnusedLabels w contacts budget need i).length = need := by
  intro budget
  induction budget with
  | zero =>
    intro need i hcount
    have : need = 0 := by omega
    subst this
    rfl
  | succ budget ih =>
    intro need i hcount
    match need with
    | 0 => rfl
    | m + 1 =>
      rw [collectUnusedLabels]
      rw [show usedCountFrom w contacts i (budget + 1) =
        (if isLabelUsed contacts (defaultLabel w i) then 1 else 0) +
          usedCountFrom w contacts (i + 1) budget from rfl] at hcount
      by_cases hused : isLabelUsed contacts (defaultLabel w i) = true
      · rw [if_pos hused]
        rw [if_pos hused] at hcount
        exact ih (m + 1) (i + 1) (by omega)
      · rw [if_neg hused]
        rw [if_neg hused] at hcount
        rw [List.length_cons, ih m (i + 1) (by omega)]

theorem usedCountFrom_eq_filter (w : String) (contacts : List Contact) :
    ∀ (budget i : Nat),
      usedCountFrom w contacts i budget =
        ((rangeList i budget).filter
          (fun j => isLabelUsed contacts (defaultLabel w j))).length := by
  intro budget
  induction budget with
  | zero => intro i; rfl
  | succ budget ih =>
    intro i
    rw [show usedCountFrom w contacts i (budget + 1) =
      (if isLabelUsed contacts (defaultLabel w i) then 1 else 0) +
        usedCountFrom w contacts (i + 1) budget from rfl]
    rw [show rangeList i (budget + 1) = i :: rangeList (i + 1) budget from rfl]
    rw [List.filter_cons]
    by_cases hused : isLabelUsed contacts (defaultLabel w i) = true
    · rw [if_pos hused, if_pos hused, List.length_cons, ih (i + 1)]
      omega
    · rw [if_neg hused, if_neg hused, ih (i + 1)]
      omega

theorem rangeList_ge : ∀ (n i j : Nat), j ∈ rangeList i n → i ≤ j := by
  intro n
  induction n with
  | zero =>
    intro i j hj
    simp [rangeList] at hj
  | succ n ih =>
    intro i j hj
    rw [show rangeList i (n + 1) = i :: rangeList (i + 1) n from rfl] at hj
    rcases List.mem_cons.mp hj with rfl | hj'
    · exact le_rfl
    · have := ih (i + 1) j hj'
      omega

theorem rangeList_nodup : ∀ (n i : Nat), (rangeList i n).Nodup := by
  intro n
  induction n with
  | zero => intro i; exact List.nodup_nil
  | succ n ih =>
    intro i
    rw [show rangeList i (n + 1) = i :: rangeList (i + 1) n from rfl]
    refine List.nodup_cons.mpr ⟨?_, ih (i + 1)⟩
    intro hmem
    have := rangeList_ge n (i + 1) i hmem
    omega

theorem usedCountFrom_le (w : String) (contacts : List Contact)
    (budget i : Nat) :
    usedCountFrom w contacts i budget ≤ contacts.length := by
  rw [usedCountFrom_eq_filter]
  set F := (rangeList i budget).filter
    (fun j => isLabelUsed contacts (defaultLabel w j)) with hF
  have hFnodup : F.Nodup :=
    (List.filter_sublist _).nodup (rangeList_nodup budget i)
  have hmapnodup : (F.map (defaultLabel w)).Nodup :=
    List.Nodup.map_on (fun x _ y _ hxy => defaultLabel_injective w hxy)
      hFnodup
  have hsub : ∀ l ∈ F.map (defaultLabel w),
      l ∈ contacts.map (fun c => c.label) := by
    intro l hl
    rcases List.mem_map.mp hl with ⟨j, hj, rfl⟩
    have hused : isLabelUsed contacts (defaultLabel w j) = true :=
      (List.mem_filter.mp hj).2
    rcases List.any_eq_true.mp hused with ⟨c, hc, hcl⟩
    have hceq : c.label = defaultLabel w j := by simpa using hcl
    exact List.mem_map.mpr ⟨c, hc, hceq⟩
  have hcard1 : (F.map (defaultLabel w)).toFinset.card =
      (F.map (defaultLabel w)).length :=
    List.toFinset_card_of_nodup hmapnodup
  have hcard2 : (F.map (defaultLabel w)).toFinset ⊆
      (contacts.map (fun c => c.label)).toFinset := by
    intro x hx
    rw [List.mem_toFinset] at hx ⊢
    exact hsub x hx
  have hcard3 : (contacts.map (fun c => c.label)).toFinset.card ≤
      (contacts.map (fun c => c.label)).length :=
    List.toFinset_card_le _
  have hlen : (F.map (defaultLabel w)).length ≤
      (contacts.map (fun c => c.label)).length := by
    calc (F.map (defaultLabel w)).length
        = (F.map (defaultLabel w)).toFinset.card := hcard1.symm
      _ ≤ (contacts.map (fun c => c.label)).toFinset.card :=
          Finset.card_le_card hcard2
      _ ≤ (contacts.map (fun c => c.label)).length := hcard3
  rw [List.length_map, List.length_map] at hlen
  exact hlen

theorem findLabels_length (w : String) (n : Nat) (contacts : List Contact) :
    (findMultipleNextUnusedDefaultLabels w n contacts).length = n := by
  apply collectUnusedLabels_length
  have := usedCountFrom_le w contacts (n + contacts.length) 1
  omega

theorem findLabels_sound (w : String) (n : Nat) (contacts : List Contact)
    (l : String) (hl : l ∈ findMultipleNextUnusedDefaultLabels w n contacts) :
    l ∉ contacts.map (fun c => c.label) ∧ l ≠ NO_LABEL ∧
      ∃ j, 1 ≤ j ∧ l = defaultLabel w j := by
  obtain ⟨hused, j, hj, rfl⟩ :=
    collectUnusedLabels_sound w contacts (n + contacts.length) n 1 l hl
  exact ⟨isLabelUsed_false_notMem hused, defaultLabel_ne_noLabel w j,
    j, hj, rfl⟩

theorem getContact_found_props {orig : List Contact}
    {address networkId : String} {c : Contact}
    (h : getContactByAddressAndNetworkId orig address networkId = some c) :
    c ∈ orig ∧ c.address = address ∧ c.network = networkId := by
  have hmem := List.mem_of_find?_eq_some h
  have hp := List.find?_some h
  simp only [Bool.and_eq_true, beq_iff_eq] at hp
  exact ⟨hmem, hp.1, hp.2⟩

theorem nodupUuid_inj {orig : List Contact}
    (hnodup : (orig.map (fun c => c.uuid)).Nodup) {c d : Contact}
    (hc : c ∈ orig) (hd : d ∈ orig) (h : c.uuid = d.uuid) : c = d :=
  List.inj_on_of_nodup_map hnodup hc hd h

theorem contactStep_covers (orig cur : List Contact) (networkId : String)
    (labels : List String) (seed idx : Nat) (ra : IAccount)
    (hcov : coversUuids orig cur) :
    coversUuids orig (contactStep orig networkId labels seed idx ra cur) := by
  intro c hc
  obtain ⟨x, hx, hxu⟩ := hcov c hc
  cases hfind : getContactByAddressAndNetworkId orig ra.address networkId with
  | none =>
    simp only [contactStep, hfind, createContact]
    exact ⟨x, List.mem_append_left _ hx, hxu⟩
  | some existing =>
    simp only [contactStep, hfind]
    by_cases hlab : (existing.label == NO_LABEL) = true
    · rw [if_pos hlab]
      unfold updateContact
      by_cases hxe : x.uuid = existing.uuid
      · refine ⟨{ existing with label := labels.getD idx "" }, ?_, ?_⟩
        · exact List.mem_map.mpr ⟨x, hx, by simp [hxe]⟩
        · simp only []
          rw [show ({ existing with label := labels.getD idx "" } :
            Contact).uuid = existing.uuid from rfl]
          rw [← hxe, hxu]
      · refine ⟨x, ?_, hxu⟩
        exact List.mem_map.mpr ⟨x, hx, by simp [hxe]⟩
    · rw [if_neg hlab]
      exact ⟨x, hx, hxu⟩

theorem contactStep_keeps (orig cur : List Contact) (networkId : String)
    (labels : List String) (seed idx : Nat) (ra : IAccount) (c : Contact)
    (hc : c ∈ cur) (hne : contactTarget orig networkId ra ≠ some c.uuid) :
    c ∈ contactStep orig networkId labels seed idx ra cur := by
  cases hfind : getContactByAddressAndNetworkId orig ra.address networkId with
  | none =>
    simp only [contactStep, hfind, createContact]
    exact List.mem_append_left _ hc
  | some existing =>
    simp only [contactStep, hfind]
    by_cases hlab : (existing.label == NO_LABEL) = true
    · rw [if_pos hlab]
      have htar : contactTarget orig networkId ra = some existing.uuid := by
        simp only [contactTarget, hfind, if_pos hlab]
      have hneu : ¬ (c.uuid = existing.uuid) := by
        intro hcontra
        exact hne (by rw [htar, hcontra])
      unfold updateContact
      exact List.mem_map.mpr ⟨c, hc, by simp [hneu]⟩
    · rw [if_neg hlab]
      exact hc

theorem contactStep_keepfull (orig cur : List Contact) (networkId : String)
    (labels : List String) (seed idx : Nat) (ra : IAccount)
    (hnodup : (orig.map (fun c => c.uuid)).Nodup)
    (hkeep : ∀ c ∈ orig, c.label ≠ NO_LABEL → c ∈ cur) :
    ∀ c ∈ orig, c.label ≠ NO_LABEL →
      c ∈ contactStep orig networkId labels seed idx ra cur := by
  intro c hc hclab
  apply contactStep_keeps orig cur networkId labels seed idx ra c
    (hkeep c hc hclab)
  intro hcontra
  cases hfind : getContactByAddressAndNetworkId orig ra.address networkId with
  | none => simp [contactTarget, hfind] at hcontra
  | some existing =>
    by_cases hlab : (existing.label == NO_LABEL) = true
    · simp only [contactTarget, hfind, if_pos hlab, Option.some.injEq]
        at hcontra
      have hex := (getContact_found_props hfind).1
      have : existing = c := nodupUuid_inj hnodup hex hc hcontra
      have hlab' : existing.label = NO_LABEL := by simpa using hlab
      exact hclab (this ▸ hlab')
    · simp only [contactTarget, hfind] at hcontra
      rw [if_neg hlab] at hcontra
      exact Option.noConfusion hcontra

theorem contactStep_establish (orig cur : List Contact) (networkId : String)
    (labels : List String) (seed idx : Nat) (ra : IAccount)
    (hcov : coversUuids orig cur)
    (hkeep : ∀ c ∈ orig, c.label ≠ NO_LABEL → c ∈ cur) :
    expectedContact orig networkId labels seed idx ra ∈
      contactStep orig networkId labels seed idx ra cur := by
  cases hfind : getContactByAddressAndNetworkId orig ra.address networkId with
  | none =>
    simp only [contactStep, expectedContact, hfind, createContact]
    exact List.mem_append_right _ (by simp)
  | some existing =>
    simp only [contactStep, expectedContact, hfind]
    by_cases hlab : (existing.label == NO_LABEL) = true
    · rw [if_pos hlab, if_pos hlab]
      obtain ⟨x, hx, hxu⟩ :=
        hcov existing (getContact_found_props hfind).1
      unfold updateContact
      exact List.mem_map.mpr ⟨x, hx, by simp [hxu]⟩
    · rw [if_neg hlab, if_neg hlab]
      have hclab : existing.label ≠ NO_LABEL := by simpa using hlab
      exact hkeep existing (getContact_found_props hfind).1 hclab

theorem contactSteps_covers (orig : List Contact) (networkId : String)
    (labels : List String) (seed : Nat) :
    ∀ (ras : List IAccount) (idx0 : Nat) (cur : List Contact),
      coversUuids orig cur →
      coversUuids orig (contactSteps orig networkId labels seed idx0 ras cur)
  | [], _, _, hcov => hcov
  | ra :: rest, idx0, cur, hcov =>
    contactSteps_covers orig networkId labels seed rest (idx0 + 1) _
      (contactStep_covers orig cur networkId labels seed idx0 ra hcov)

theorem contactSteps_keeps (orig : List Contact) (networkId : String)
    (labels : List String) (seed : Nat) :
    ∀ (ras : List IAccount) (idx0 : Nat) (cur : List Contact) (c : Contact),
      c ∈ cur →
      (∀ ra ∈ ras, contactTarget orig networkId ra ≠ some c.uuid) →
      c ∈ contactSteps orig networkId labels seed idx0 ras cur
  | [], _, _, _, hc, _ => hc
  | ra :: rest, idx0, cur, c, hc, hne =>
    contactSteps_keeps orig networkId labels seed rest (idx0 + 1) _ c
      (contactStep_keeps orig cur networkId labels seed idx0 ra c hc
        (hne ra (List.mem_cons_self _ _)))
      (fun ra2 hra2 => hne ra2 (List.mem_cons_of_mem _ hra2))

theorem contactSteps_member (orig : List Contact) (networkId : String)
    (labels : List String) (seed : Nat)
    (hnodup : (orig.map (fun c => c.uuid)).Nodup) :
    ∀ (ras : List IAccount) (idx0 : Nat) (cur : List Contact),
    coversUuids orig cur →
    (∀ c ∈ orig, c.label ≠ NO_LABEL → c ∈ cur) →
    ∀ (idx : Nat) (ra : IAccount), ras[idx]? = some ra →
    (∀ (j : Nat) (ra2 : IAccount), ras[j]? = some ra2 → j ≠ idx →
      ra2.address ≠ ra.address) →
    (∀ c ∈ orig, c.uuid ≠ generatedUuid (seed + (idx0 + idx))) →
    expectedContact orig networkId labels seed (idx0 + idx) ra ∈
      contactSteps orig networkId labels seed idx0 ras cur := by
  intro ras
  induction ras with
  | nil =>
    intro idx0 cur _ _ idx ra hra _ _
    simp at hra
  | cons ra1 rest ih =>
    intro idx0 cur hcov hkeep idx ra hra hdist hfreshk
    cases idx with
    | zero =>
      obtain rfl : ra = ra1 := by
        have : ra1 = ra := by simpa using hra
        exact this.symm
      rw [Nat.add_zero] at hfreshk ⊢
      show expectedContact orig networkId labels seed idx0 ra ∈
        contactSteps orig networkId labels seed (idx0 + 1) rest
          (contactStep orig networkId labels seed idx0 ra cur)
      apply contactSteps_keeps orig networkId labels seed rest (idx0 + 1) _ _
        (contactStep_establish orig cur networkId labels seed idx0 ra hcov
          hkeep)
      intro ra2 hra2
      obtain ⟨j, hj⟩ := List.mem_iff_getElem?.mp hra2
      have hj' : (ra :: rest)[j + 1]? = some ra2 := by simpa using hj
      have hne := hdist (j + 1) ra2 hj' (by omega)
      intro hcontra
      cases hfind2 : getContactByAddressAndNetworkId orig ra2.address
          networkId with
      | none =>
        simp only [contactTarget, hfind2] at hcontra
        exact Option.noConfusion hcontra
      | some ex2 =>
        by_cases hlab2 : (ex2.label == NO_LABEL) = true
        · simp only [contactTarget, hfind2, if_pos hlab2,
            Option.some.injEq] at hcontra
          obtain ⟨hex2, hex2addr, _⟩ := getContact_found_props hfind2
          cases hfind1 : getContactByAddressAndNetworkId orig ra.address
              networkId with
          | some ex1 =>
            obtain ⟨hex1, hex1addr, _⟩ := getContact_found_props hfind1
            have heuuid : (expectedContact orig networkId labels seed idx0
                ra).uuid = ex1.uuid := by
              simp only [expectedContact, hfind1]
              by_cases hlab1 : (ex1.label == NO_LABEL) = true
              · rw [if_pos hlab1]
              · rw [if_neg hlab1]
            rw [heuuid] at hcontra
            have hexeq := nodupUuid_inj hnodup hex2 hex1 hcontra
            apply hne
            rw [← hex2addr, hexeq, hex1addr]
          | none =>
            have heuuid : (expectedContact orig networkId labels seed idx0
                ra).uuid = generatedUuid (seed + idx0) := by
              simp only [expectedContact, hfind1]
            rw [heuuid] at hcontra
            exact hfreshk ex2 hex2 hcontra
        · simp only [contactTarget, hfind2] at hcontra
          rw [if_neg hlab2] at hcontra
          exact Option.noConfusion hcontra
    | succ n =>
      have hra' : rest[n]? = some ra := by simpa using hra
      show expectedContact orig networkId labels seed (idx0 + (n + 1)) ra ∈
        contactSteps orig networkId labels seed (idx0 + 1) rest
          (contactStep orig networkId labels seed idx0 ra1 cur)
      rw [show idx0 + (n + 1) = (idx0 + 1) + n from by omega]
      apply ih (idx0 + 1)
        (contactStep orig networkId labels seed idx0 ra1 cur)
        (contactStep_covers orig cur networkId labels seed idx0 ra1 hcov)
        (contactStep_keepfull orig cur networkId labels seed idx0 ra1 hnodup
          hkeep)
        n ra hra'
        (fun j ra2 hj hjn =>
          hdist (j + 1) ra2 (by simpa using hj) (by omega))
      intro c hc
      rw [show seed + (idx0 + 1 + n) = seed + (idx0 + (n + 1)) from by omega]
      exact hfreshk c hc

theorem uuidBalance_cons (x : StoreAsset) (l : List StoreAsset) (u : String) :
    uuidBalance (x :: l) u =
      (if x.uuid == u then x.balance else 0) + uuidBalance l u := by
  by_cases h : x.uuid == u <;> simp [uuidBalance, List.filter_cons, h]

theorem uuidBalance_append (l₁ l₂ : List StoreAsset) (u : String) :
    uuidBalance (l₁ ++ l₂) u = uuidBalance l₁ u + uuidBalance l₂ u := by
  simp [uuidBalance, List.filter_append]

theorem mapUuid_addAssetToTotals_pos (dict : List StoreAsset) (a : StoreAsset)
    (h : dict.any (fun p => p.uuid == a.uuid) = true) :
    (addAssetToTotals dict a).map (fun p => p.uuid) =
      dict.map (fun p => p.uuid) := by
  unfold addAssetToTotals
  rw [if_pos h, List.map_map]
  apply List.map_congr_left
  intro p _
  simp only [Function.comp]
  split <;> rfl

theorem mapUuid_addAssetToTotals_neg (dict : List StoreAsset) (a : StoreAsset)
    (h : dict.any (fun p => p.uuid == a.uuid) = false) :
    (addAssetToTotals dict a).map (fun p => p.uuid) =
      dict.map (fun p => p.uuid) ++ [a.uuid] := by
  unfold addAssetToTotals
  rw [if_neg (by simp [h]), List.map_append]
  rfl

theorem nodup_addAssetToTotals (dict : List StoreAsset) (a : StoreAsset)
    (h : (dict.map (fun p => p.uuid)).Nodup) :
    ((addAssetToTotals dict a).map (fun p => p.uuid)).Nodup := by
  by_cases hany : dict.any (fun p => p.uuid == a.uuid) = true
  · rw [mapUuid_addAssetToTotals_pos dict a hany]
    exact h
  · rw [mapUuid_addAssetToTotals_neg dict a (by simpa using hany)]
    have hnotin : a.uuid ∉ dict.map (fun p => p.uuid) := by
      intro hmem
      rcases List.mem_map.mp hmem with ⟨p, hp, hpu⟩
      exact absurd (List.any_eq_true.mpr ⟨p, hp, by simp [hpu]⟩) hany
    simp [List.nodup_append, h, hnotin]

theorem mem_mapUuid_addAssetToTotals (dict : List StoreAsset)
    (a : StoreAsset) (u : String) :
    u ∈ (addAssetToTotals dict a).map (fun p => p.uuid) ↔
      u ∈ dict.map (fun p => p.uuid) ∨ u = a.uuid := by
  by_cases hany : dict.any (fun p => p.uuid == a.uuid) = true
  · rw [mapUuid_addAssetToTotals_pos dict a hany]
    rcases List.any_eq_true.mp hany with ⟨p, hp, hpu⟩
    have hpu' : p.uuid = a.uuid := by simpa using hpu
    constructor
    · exact Or.inl
    · rintro (hu | rfl)
      · exact hu
      · exact List.mem_map.mpr ⟨p, hp, hpu'⟩
  · rw [mapUuid_addAssetToTotals_neg dict a (by simpa using hany)]
    simp [List.mem_append]

theorem uuidBalance_map_bump (a : StoreAsset) (u : String)
    (dict : List StoreAsset) (hnd : (dict.map (fun p => p.uuid)).Nodup)
    (hmem : a.uuid ∈ dict.map (fun p => p.uuid)) :
    uuidBalance
      (dict.map (fun p =>
        if p.uuid == a.uuid then { p with balance := p.balance + a.balance }
        else p)) u =
      uuidBalance dict u + (if a.uuid == u then a.balance else 0) := by
  induction dict with
  | nil => simp at hmem
  | cons p rest ih =>
    rw [List.map_cons] at hnd
    have hnd' := List.nodup_cons.mp hnd
    by_cases hpu : p.uuid = a.uuid
    · have hnotin : a.uuid ∉ rest.map (fun q => q.uuid) := hpu ▸ hnd'.1
      have hrest : rest.map (fun q =>
          if q.uuid == a.uuid then { q with balance := q.balance + a.balance }
          else q) = rest := by
        have h1 : rest.map (fun q =>
            if q.uuid == a.uuid then { q with balance := q.balance + a.balance }
            else q) = rest.map id := by
          apply List.map_congr_left
          intro q hq
          have hqne : q.uuid ≠ a.uuid := by
            intro hcontra
            exact hnotin (List.mem_map.mpr ⟨q, hq, hcontra⟩)
          simp [hqne]
        simpa using h1
      rw [List.map_cons, if_pos (by simp [hpu]), hrest,
        uuidBalance_cons, uuidBalance_cons]
      by_cases hu : a.uuid = u <;> (simp [hpu, hu]; try ring)
    · have hmem' : a.uuid ∈ rest.map (fun q => q.uuid) := by
        rcases List.mem_map.mp hmem with ⟨q, hq, hqu⟩
        rcases List.mem_cons.mp hq with rfl | hq'
        · exact absurd hqu.symm (fun h => hpu h.symm)
        · exact List.mem_map.mpr ⟨q, hq', hqu⟩
      rw [List.map_cons, if_neg (by simp [hpu]),
        uuidBalance_cons, uuidBalance_cons, ih hnd'.2 hmem']
      ring

theorem uuidBalance_addAssetToTotals (dict : List StoreAsset)
    (a : StoreAsset) (u : String)
    (hnd : (dict.map (fun p => p.uuid)).Nodup) :
    uuidBalance (addAssetToTotals dict a) u =
      uuidBalance dict u + (if a.uuid == u then a.balance else 0) := by
  by_cases hany : dict.any (fun p => p.uuid == a.uuid) = true
  · have hmem : a.uuid ∈ dict.map (fun p => p.uuid) := by
      rcases List.any_eq_true.mp hany with ⟨p, hp, hpu⟩
      exact List.mem_map.mpr ⟨p, hp, by simpa using hpu⟩
    unfold addAssetToTotals
    rw [if_pos hany]
    exact uuidBalance_map_bump a u dict hnd hmem
  · unfold addAssetToTotals
    rw [if_neg hany, uuidBalance_append]
    have : uuidBalance [a] u = if a.uuid == u then a.balance else 0 := by
      rw [uuidBalance_cons]
      simp [uuidBalance]
    rw [this]

theorem getTotalByAsset_fold (assets : List StoreAsset) :
    ∀ dict : List StoreAsset, (dict.map (fun p => p.uuid)).Nodup →
      (((assets.foldl addAssetToTotals dict).map (fun p => p.uuid)).Nodup ∧
       (∀ u, u ∈ (assets.foldl addAssetToTotals dict).map (fun p => p.uuid) ↔
          u ∈ dict.map (fun p => p.uuid) ∨
            u ∈ assets.map (fun p => p.uuid)) ∧
       (∀ u, uuidBalance (assets.foldl addAssetToTotals dict) u =
          uuidBalance dict u + uuidBalance assets u)) := by
  induction assets with
  | nil =>
    intro dict hnd
    exact ⟨hnd, by simp, by simp [uuidBalance]⟩
  | cons a rest ih =>
    intro dict hnd
    obtain ⟨h1, h2, h3⟩ := ih (addAssetToTotals dict a)
      (nodup_addAssetToTotals dict a hnd)
    rw [List.foldl_cons]
    refine ⟨h1, ?_, ?_⟩
    · intro u
      rw [h2 u, mem_mapUuid_addAssetToTotals, List.map_cons, List.mem_cons]
      tauto
    · intro u
      rw [h3 u, uuidBalance_addAssetToTotals dict a u hnd, uuidBalance_cons]
      ring

theorem filter_uuid_singleton (l : List StoreAsset) (t : StoreAsset)
    (hnd : (l.map (fun p => p.uuid)).Nodup) (ht : t ∈ l) :
    l.filter (fun p => p.uuid == t.uuid) = [t] := by
  induction l with
  | nil => simp at ht
  | cons x rest ih =>
    rw [List.map_cons] at hnd
    have hnd' := List.nodup_cons.mp hnd
    rcases List.mem_cons.mp ht with rfl | ht'
    · rw [List.filter_cons, if_pos (by simp)]
      have hempty : rest.filter (fun p => p.uuid == t.uuid) = [] := by
        apply List.filter_eq_nil_iff.mpr
        intro q hq
        intro hcontra
        exact hnd'.1
          (List.mem_map.mpr ⟨q, hq, by simpa using hcontra⟩)
      rw [hempty]
    · have hmemrest : t.uuid ∈ rest.map (fun p => p.uuid) :=
        List.mem_map.mpr ⟨t, ht', rfl⟩
      have hx : ¬ ((x.uuid == t.uuid) = true) := by
        intro hcontra
        have hxu : x.uuid = t.uuid := by simpa using hcontra
        exact hnd'.1 (hxu ▸ hmemrest)
      rw [List.filter_cons, if_neg hx]
      exact ih hnd'.2 ht'

theorem foldl_add_conv (f : StoreAsset → Int) (l : List StoreAsset) :
    ∀ c : Int, l.foldl (fun s x => s + f x) c = c + (l.map f).sum := by
  induction l with
  | nil => intro c; simp
  | cons x rest ih =>
    intro c
    rw [List.foldl_cons, ih, List.map_cons, List.sum_cons]
    ring

theorem addMultipleAccounts_eq_branch (env : StoreEnv) (networkId : String)
    (accountType : Option String) (newAccounts : List IAddAccount)
    {net : Network} (hnet : getNetworkById networkId env.networks = some net)
    (hne : newAccounts.isEmpty = false) :
    addMultipleAccounts env networkId accountType newAccounts =
      match (newAccounts.filter (fun a =>
          (getAccountByAddressAndNetworkName env.accounts a.address
            networkId).isNone)).map
          (mkRawAccount networkId
            (if accountType == some "WEB3" then some web3ConfigId
              else accountType)
            (getNewDefaultAssetTemplateByNetwork env.assets net).uuid
            env.now) with
      | [] => { created := none, contacts := env.contacts }
      | ra0 :: rest =>
        { created := some (ra0 :: rest)
          contacts := contactSteps env.contacts networkId
            (findMultipleNextUnusedDefaultLabels (walletNameOf ra0.wallet)
              (ra0 :: rest).length env.contacts)
            env.uuidSeed 0 (ra0 :: rest) env.contacts } := by
  unfold addMultipleAccounts
  rw [hnet, hne]
  rfl

/-- C3: `addMultipleAccounts` returns undefined exactly when the network
id is unknown, the input list is empty, or every input address already has
an account on the network; otherwise it creates and returns raw accounts
for exactly the input addresses without an existing account, each with the
deterministic address uuid, a single asset of balance zero, no
transactions, and favorite off. -/
theorem addMultipleAccounts_spec (env : StoreEnv) (networkId : String)
    (accountType : Option String) (newAccounts : List IAddAccount) :
    ((addMultipleAccounts env networkId accountType newAccounts).created =
        none ↔
      (getNetworkById networkId env.networks = none ∨ newAccounts = [] ∨
        ∀ a ∈ newAccounts,
          (getAccountByAddressAndNetworkName env.accounts a.address
            networkId).isSome = true)) ∧
    (∀ ras,
      (addMultipleAccounts env networkId accountType newAccounts).created =
        some ras →
      ras.map (fun r => r.address) =
        (newAccounts.filter (fun a =>
          (getAccountByAddressAndNetworkName env.accounts a.address
            networkId).isNone)).map (fun a => a.address) ∧
      ∀ r ∈ ras,
        r.networkId = networkId ∧
        r.uuid = generateDeterministicAddressUUID networkId r.address ∧
        (∃ asset, r.assets = [asset] ∧ asset.balance = "0") ∧
        r.transactions = [] ∧
        r.favorite = false) := by
  cases hnet : getNetworkById networkId env.networks with
  | none =>
    constructor
    · simp [addMultipleAccounts, hnet]
    · intro ras h
      simp [addMultipleAccounts, hnet] at h
  | some net =>
    by_cases hempty : newAccounts.isEmpty = true
    · have hnil : newAccounts = [] := by simpa using hempty
      constructor
      · simp [addMultipleAccounts, hnet, hnil]
      · intro ras h
        simp [addMultipleAccounts, hnet, hnil] at h
    · have hne : ¬ newAccounts = [] := by
        intro hcontra
        rw [hcontra] at hempty
        exact hempty rfl
      have hne2 : newAccounts.isEmpty = false := by
        cases hval : newAccounts.isEmpty with
        | false => rfl
        | true => exact absurd hval hempty
      have hunf := addMultipleAccounts_eq_branch env networkId accountType
        newAccounts hnet hne2
      cases hsplit : (newAccounts.filter (fun a =>
          (getAccountByAddressAndNetworkName env.accounts a.address
            networkId).isNone)).map
          (mkRawAccount networkId
            (if accountType == some "WEB3" then some web3ConfigId
              else accountType)
            (getNewDefaultAssetTemplateByNetwork env.assets net).uuid
            env.now) with
      | nil =>
        rw [hsplit] at hunf
        have hfilnil : newAccounts.filter (fun a =>
            (getAccountByAddressAndNetworkName env.accounts a.address
              networkId).isNone) = [] := by
          exact List.map_eq_nil_iff.mp hsplit
        constructor
        · constructor
          · intro _
            refine Or.inr (Or.inr ?_)
            intro a ha
            have := List.filter_eq_nil_iff.mp hfilnil a ha
            cases hopt : getAccountByAddressAndNetworkName env.accounts
                a.address networkId with
            | none => rw [hopt] at this; simp at this
            | some acc => rfl
          · intro _
            rw [hunf]
        · intro ras h
          rw [hunf] at h
          exact Option.noConfusion h
      | cons ra0 rest =>
        rw [hsplit] at hunf
        have hcreated : (addMultipleAccounts env networkId accountType
            newAccounts).created = some (ra0 :: rest) := by
          rw [hunf]
        constructor
        · rw [hcreated]
          constructor
          · intro h
            exact Option.noConfusion h
          · rintro (h | h | h)
            · exact Option.noConfusion h
            · exact absurd h hne
            · exfalso
              have hfil : newAccounts.filter (fun a =>
                  (getAccountByAddressAndNetworkName env.accounts a.address
                    networkId).isNone) ≠ [] := by
                intro hcontra
                rw [hcontra] at hsplit
                exact List.noConfusion hsplit
              obtain ⟨a, ha⟩ := List.exists_mem_of_ne_nil _ hfil
              have hamem := List.mem_of_mem_filter ha
              have hisnone := List.of_mem_filter ha
              have hissome := h a hamem
              cases hopt : getAccountByAddressAndNetworkName env.accounts
                  a.address networkId with
              | none => rw [hopt] at hissome; simp at hissome
              | some acc => rw [hopt] at hisnone; simp at hisnone
        · intro ras h
          rw [hcreated] at h
          have hras : ras = ra0 :: rest := by
            exact (Option.some.injEq _ _).mp h.symm
          subst hras
          rw [← hsplit]
          constructor
          · rw [List.map_map]
            apply List.map_congr_left
            intro a _
            rfl
          · intro r hr
            rcases List.mem_map.mp hr with ⟨a, _, rfl⟩
            refine ⟨rfl, rfl, ⟨_, rfl, rfl⟩, rfl, rfl⟩

/-- C3 witness: a known network, one input address with an existing
account and one without; exactly the fresh address is created. -/
theorem addMultipleAccounts_spec_witness :
    [sampleCreated].map (fun r => r.address) = ["0x2"] ∧
    ∀ r ∈ [sampleCreated],
      r.networkId = "Ethereum" ∧
      r.uuid = generateDeterministicAddressUUID "Ethereum" r.address ∧
      (∃ asset, r.assets = [asset] ∧ asset.balance = "0") ∧
      r.transactions = [] ∧
      r.favorite = false := by
  have h := (addMultipleAccounts_spec sampleEnv "Ethereum" (some "LEDGER")
    sampleInputs).2 [sampleCreated] (by decide)
  refine ⟨?_, h.2⟩
  rw [h.1]
  decide

theorem getD_mem_of_lt {α : Type} :
    ∀ (l : List α) (i : Nat), i < l.length → ∀ d : α, l.getD i d ∈ l
  | [], i, h, _ => absurd h (by simp)
  | x :: _, 0, _, d => by simp [List.getD]
  | x :: xs, i + 1, h, d => by
    rw [show (x :: xs).getD (i + 1) d = xs.getD i d from by simp [List.getD]]
    exact List.mem_cons_of_mem _ (getD_mem_of_lt xs i (by simpa using h) d)

theorem map_nodup_getElem_ne {α β : Type} (f : α → β) (l : List α)
    (hnd : (l.map f).Nodup) (i j : Nat) (x y : α)
    (hi : l[i]? = some x) (hj : l[j]? = some y) (hij : i ≠ j) :
    f x ≠ f y := by
  have hi' : (l.map f)[i]? = some (f x) := by
    rw [List.getElem?_map, hi]
    rfl
  have hj' : (l.map f)[j]? = some (f y) := by
    rw [List.getElem?_map, hj]
    rfl
  intro hfxy
  rw [hfxy] at hi'
  obtain ⟨hlt, _⟩ := List.getElem?_eq_some.mp hi'
  exact hij (List.getElem?_inj hlt hnd (hi'.trans hj'.symm))

/-- C4: when `addMultipleAccounts` creates accounts, the address book is
maintained per created account as described by `expectedContact`: a found
contact with the default placeholder label is relabelled with the next
unused default label, a missing contact is created with an unused default
label and empty notes, and a contact with a non-default label is left
unchanged; consequently every created account's address has a labelled
contact on the network. The hypotheses are the address-book invariants:
contact uuids are unique, generated uuids are fresh, and the input
addresses are distinct. -/
theorem addMultipleAccounts_addressBook (env : StoreEnv) (networkId : String)
    (accountType : Option String) (newAccounts : List IAddAccount)
    (hnodup : (env.contacts.map (fun c => c.uuid)).Nodup)
    (hfresh : ∀ c ∈ env.contacts, ∀ k < env.uuidSeed + newAccounts.length,
      c.uuid ≠ generatedUuid k)
    (haddr : (newAccounts.map (fun a => a.address)).Nodup) :
    ∀ ras,
      (addMultipleAccounts env networkId accountType newAccounts).created =
        some ras →
      ((findMultipleNextUnusedDefaultLabels
          (walletNameOf (if accountType == some "WEB3" then some web3ConfigId
            else accountType)) ras.length env.contacts).length =
        ras.length ∧
      (∀ l ∈ findMultipleNextUnusedDefaultLabels
          (walletNameOf (if accountType == some "WEB3" then some web3ConfigId
            else accountType)) ras.length env.contacts,
        l ∉ env.contacts.map (fun c => c.label) ∧ l ≠ NO_LABEL ∧
          ∃ j, 1 ≤ j ∧ l = defaultLabel
            (walletNameOf (if accountType == some "WEB3" then
              some web3ConfigId else accountType)) j) ∧
      ∀ (idx : Nat) (ra : IAccount), ras[idx]? = some ra →
        expectedContact env.contacts networkId
            (findMultipleNextUnusedDefaultLabels
              (walletNameOf (if accountType == some "WEB3" then
                some web3ConfigId else accountType)) ras.length env.contacts)
            env.uuidSeed idx ra ∈
          (addMultipleAccounts env networkId accountType
            newAccounts).contacts ∧
        ∃ c ∈ (addMultipleAccounts env networkId accountType
            newAccounts).contacts,
          c.address = ra.address ∧ c.network = networkId ∧
            c.label ≠ NO_LABEL) := by
  intro ras hras
  cases hnet : getNetworkById networkId env.networks with
  | none =>
    simp only [addMultipleAccounts, hnet] at hras
    exact Option.noConfusion hras
  | some net =>
    by_cases hempty : newAccounts.isEmpty = true
    · simp only [addMultipleAccounts, hnet, hempty, if_true] at hras
      exact Option.noConfusion hras
    · have hne2 : newAccounts.isEmpty = false := by
        cases hval : newAccounts.isEmpty with
        | false => rfl
        | true => exact absurd hval hempty
      have hunf := addMultipleAccounts_eq_branch env networkId accountType
        newAccounts hnet hne2
      cases hsplit : (newAccounts.filter (fun a =>
          (getAccountByAddressAndNetworkName env.accounts a.address
            networkId).isNone)).map
          (mkRawAccount networkId
            (if accountType == some "WEB3" then some web3ConfigId
              else accountType)
            (getNewDefaultAssetTemplateByNetwork env.assets net).uuid
            env.now) with
      | nil =>
        rw [hsplit] at hunf
        rw [hunf] at hras
        exact Option.noConfusion hras
      | cons ra0 rest =>
        rw [hsplit] at hunf
        rw [hunf] at hras
        have hras2 : ra0 :: rest = ras := by
          simpa using hras
        subst hras2
        cases hfil : newAccounts.filter (fun a =>
            (getAccountByAddressAndNetworkName env.accounts a.address
              networkId).isNone) with
        | nil =>
          rw [hfil] at hsplit
          exact absurd hsplit (by simp)
        | cons a0 as =>
          rw [hfil, List.map_cons] at hsplit
          injection hsplit with hra0 hrest
          have hwallet : ra0.wallet =
              (if accountType == some "WEB3" then some web3ConfigId
                else accountType) := by
            rw [← hra0]
            rfl
          have hcontacts : (addMultipleAccounts env networkId accountType
              newAccounts).contacts =
              contactSteps env.contacts networkId
                (findMultipleNextUnusedDefaultLabels
                  (walletNameOf (if accountType == some "WEB3" then
                    some web3ConfigId else accountType))
                  (ra0 :: rest).length env.contacts)
                env.uuidSeed 0 (ra0 :: rest) env.contacts := by
            rw [hunf, ← hwallet]
          set L := findMultipleNextUnusedDefaultLabels
            (walletNameOf (if accountType == some "WEB3" then
              some web3ConfigId else accountType))
            (ra0 :: rest).length env.contacts with hL
          refine ⟨by rw [hL]; exact findLabels_length _ _ _,
            fun l hl => findLabels_sound _ _ _ l (by rwa [← hL]), ?_⟩
          intro idx ra hidx
          have haddr2 : ((ra0 :: rest).map (fun r => r.address)).Nodup := by
            have h1 : (ra0 :: rest).map (fun r => r.address) =
                (a0 :: as).map (fun a => a.address) := by
              rw [← hra0, ← hrest, List.map_cons, List.map_cons,
                List.map_map]
              rfl
            rw [h1, ← hfil]
            exact List.Nodup.sublist
              (List.Sublist.map _ (List.filter_sublist _)) haddr
          have hdist : ∀ (j : Nat) (ra2 : IAccount),
              (ra0 :: rest)[j]? = some ra2 → j ≠ idx →
              ra2.address ≠ ra.address :=
            fun j ra2 hj hne =>
              map_nodup_getElem_ne _ _ haddr2 j idx ra2 ra hj hidx hne
          obtain ⟨hidxlt, _⟩ := List.getElem?_eq_some.mp hidx
          have hraslen : (ra0 :: rest).length ≤ newAccounts.length := by
            have hlen1 : (ra0 :: rest).length = (a0 :: as).length := by
              rw [← hra0, ← hrest]
              simp
            have hlen2 : (a0 :: as).length ≤ newAccounts.length := by
              rw [← hfil]
              exact List.length_filter_le _ _
            omega
          have hfreshk : ∀ c ∈ env.contacts,
              c.uuid ≠ generatedUuid (env.uuidSeed + (0 + idx)) := by
            intro c hc
            apply hfresh c hc
            simp only [List.length_cons] at hidxlt hraslen
            omega
          have hmem := contactSteps_member env.contacts networkId L
            env.uuidSeed hnodup (ra0 :: rest) 0 env.contacts
            (fun c hc => ⟨c, hc, rfl⟩) (fun c hc _ => hc)
            idx ra hidx hdist hfreshk
          rw [Nat.zero_add] at hmem
          rw [hcontacts]
          refine ⟨hmem, ?_⟩
          have hlablen : L.length = (ra0 :: rest).length := by
            rw [hL]
            exact findLabels_length _ _ _
          have hgetD : L.getD idx "" ∈ L :=
            getD_mem_of_lt _ idx (by omega) ""
          have hlprops := findLabels_sound
            (walletNameOf (if accountType == some "WEB3" then
              some web3ConfigId else accountType))
            (ra0 :: rest).length env.contacts (L.getD idx "")
            (by rwa [← hL])
          cases hfind : getContactByAddressAndNetworkId env.contacts
              ra.address networkId with
          | some existing =>
            obtain ⟨hexmem, hexaddr, hexnet⟩ := getContact_found_props hfind
            by_cases hlab : (existing.label == NO_LABEL) = true
            · have heq : expectedContact env.contacts networkId L
                  env.uuidSeed idx ra =
                  { existing with label := L.getD idx "" } := by
                simp only [expectedContact, hfind, if_pos hlab]
              exact ⟨{ existing with label := L.getD idx "" },
                heq ▸ hmem, hexaddr, hexnet, hlprops.2.1⟩
            · have heq : expectedContact env.contacts networkId L
                  env.uuidSeed idx ra = existing := by
                simp only [expectedContact, hfind, if_neg hlab]
              exact ⟨existing, heq ▸ hmem, hexaddr, hexnet,
                by simpa using hlab⟩
          | none =>
            have heq : expectedContact env.contacts networkId L
                env.uuidSeed idx ra =
                { label := L.getD idx "", address := ra.address,
                  notes := "", network := networkId,
                  uuid := generatedUuid (env.uuidSeed + idx) } := by
              simp only [expectedContact, hfind]
            exact ⟨{ label := L.getD idx "", address := ra.address,
                     notes := "", network := networkId,
                     uuid := generatedUuid (env.uuidSeed + idx) },
              heq ▸ hmem, rfl, rfl, hlprops.2.1⟩

/-- C4 witness: concrete inputs with a fresh address, a default-labelled
contact and a labelled contact; the default-labelled contact at 0x2 ends up
labelled. -/
theorem addMultipleAccounts_addressBook_witness :
    ∃ c ∈ (addMultipleAccounts sampleEnvContacts "Ethereum" (some "LEDGER")
        sampleInputsContacts).contacts,
      c.address = "0x2" ∧ c.network = "Ethereum" ∧ c.label ≠ NO_LABEL := by
  have h := (addMultipleAccounts_addressBook sampleEnvContacts "Ethereum"
      (some "LEDGER") sampleInputsContacts (by decide) (by decide)
      (by decide)
      (sampleInputsContacts.map
        (mkRawAccount "Ethereum" (some "LEDGER") "eth-uuid" 5))
      (by decide)).2.2 1
    (mkRawAccount "Ethereum" (some "LEDGER") "eth-uuid" 5
      { address := "0x2", dPath := "p2" })
    (by decide)
  exact h.2

/-- C5: for every selection (defaulting to all accounts) and rate function,
`assets` is the in-order concatenation of the selected accounts' asset
lists, `totals` aggregates those assets by asset uuid (each aggregated
entry's balance is the total balance of its uuid, each uuid appearing
exactly once, covering exactly the selected uuids), and `totalFiat` is the
sum, starting from 0, of the fiat conversion of each aggregated asset at
its rate. -/
theorem storeAssetTotals_spec (accounts : List StoreAccount)
    (sel : Option (List StoreAccount))
    (getAssetRate : StoreAsset → Option Int) :
    assetsOf accounts none = assetsOf accounts (some accounts) ∧
    assetsOf accounts sel =
      ((sel.getD accounts).map (fun a => a.assets)).flatten ∧
    ((totalsOf accounts sel).map (fun p => p.uuid)).Nodup ∧
    (∀ u, u ∈ (totalsOf accounts sel).map (fun p => p.uuid) ↔
      u ∈ (assetsOf accounts sel).map (fun p => p.uuid)) ∧
    (∀ t ∈ totalsOf accounts sel,
      t.balance = uuidBalance (assetsOf accounts sel) t.uuid) ∧
    totalFiatOf accounts sel getAssetRate =
      ((totalsOf accounts sel).map
        (fun t => convertToFiatFromAsset t (getAssetRate t))).sum := by
  obtain ⟨h1, h2, h3⟩ :=
    getTotalByAsset_fold (assetsOf accounts sel) [] (by simp)
  refine ⟨rfl, ?_, h1, ?_, ?_, ?_⟩
  · simp [assetsOf, List.flatMap_def]
  · intro u
    rw [show totalsOf accounts sel =
      (assetsOf accounts sel).foldl addAssetToTotals [] from rfl, h2 u]
    simp
  · intro t ht
    have hbal := h3 t.uuid
    rw [show totalsOf accounts sel =
      (assetsOf accounts sel).foldl addAssetToTotals [] from rfl] at ht
    have hsingle := filter_uuid_singleton _ t h1 ht
    have : uuidBalance ((assetsOf accounts sel).foldl addAssetToTotals [])
        t.uuid = t.balance := by
      rw [uuidBalance, hsingle]
      simp
    rw [← this, hbal]
    simp [uuidBalance]
  · rw [totalFiatOf, foldl_add_conv]
    simp

/-- C5 witness: two accounts sharing an asset uuid; the aggregated `eth`
entry carries the summed balance of the selected assets. -/
theorem storeAssetTotals_spec_witness :
    (⟨"eth", 7⟩ : StoreAsset).balance =
      uuidBalance
        (assetsOf
          [{ uuid := "a1", address := "0x1", networkId := "Ethereum",
             assets := [⟨"eth", 3⟩, ⟨"dai", 5⟩] },
           { uuid := "a2", address := "0x2", networkId := "Ethereum",
             assets := [⟨"eth", 4⟩] }] none) "eth" :=
  (storeAssetTotals_spec
      [{ uuid := "a1", address := "0x1", networkId := "Ethereum",
         assets := [⟨"eth", 3⟩, ⟨"dai", 5⟩] },
       { uuid := "a2", address := "0x2", networkId := "Ethereum",
         assets := [⟨"eth", 4⟩] }] none
      (fun t => if t.uuid == "eth" then some 2 else none)).2.2.2.2.1
    ⟨"eth", 7⟩ (by decide)

/-- C6: `restoreDeletedAccount` throws exactly when the restore cache holds
no (non-empty) account under the id; on the error path nothing is
dispatched and the cache is unchanged; when an account is held, it
dispatches `addAccounts` with that single account and resets the cache
entry to undefined, so a second restore of the same id throws. -/
theorem restoreDeletedAccount_spec (cache : RestoreCache) (accountId : String) :
    ((restoreDeletedAccount cache accountId).error = some restoreErrorMessage ↔
      lodashIsEmpty (cacheGet cache accountId) = true) ∧
    (cacheGet cache accountId = none →
      restoreDeletedAccount cache accountId =
        { dispatched := [], cache := cache,
          error := some restoreErrorMessage }) ∧
    (∀ a, cacheGet cache accountId = some a → a.uuid = accountId →
      restoreDeletedAccount cache accountId =
        { dispatched := [StoreAction.addAccounts [a]]
          cache := cacheSet cache a.uuid none
          error := none } ∧
      (restoreDeletedAccount
          (restoreDeletedAccount cache accountId).cache accountId).error =
        some restoreErrorMessage) := by
  refine ⟨?_, ?_, ?_⟩
  · cases h : cacheGet cache accountId with
    | none => simp [restoreDeletedAccount, h, lodashIsEmpty]
    | some a => simp [restoreDeletedAccount, h, lodashIsEmpty]
  · intro h
    simp [restoreDeletedAccount, h]
  · intro a h huuid
    have hres : restoreDeletedAccount cache accountId =
        { dispatched := [StoreAction.addAccounts [a]]
          cache := cacheSet cache a.uuid none
          error := none } := by
      simp [restoreDeletedAccount, h]
    refine ⟨hres, ?_⟩
    have hget : cacheGet (cacheSet cache a.uuid none) accountId = none := by
      simp [cacheGet, cacheSet, List.find?, huuid]
    rw [hres]
    simp [restoreDeletedAccount, hget]

/-- C6 witness: a concrete cache holding one account under its uuid. -/
theorem restoreDeletedAccount_spec_witness :
    restoreDeletedAccount
        [("uuid1", some { uuid := "uuid1", address := "0xabc",
                          networkId := "Ethereum", wallet := none,
                          dPath := "", assets := [], transactions := [],
                          favorite := false, mtime := 0 })] "uuid1" =
      { dispatched := [StoreAction.addAccounts
          [{ uuid := "uuid1", address := "0xabc", networkId := "Ethereum",
             wallet := none, dPath := "", assets := [], transactions := [],
             favorite := false, mtime := 0 }]]
        cache := [("uuid1", none),
          ("uuid1", some { uuid := "uuid1", address := "0xabc",
                           networkId := "Ethereum", wallet := none,
                           dPath := "", assets := [], transactions := [],
                           favorite := false, mtime := 0 })]
        error := none } ∧
    (restoreDeletedAccount
        (restoreDeletedAccount
          [("uuid1", some { uuid := "uuid1", address := "0xabc",
                            networkId := "Ethereum", wallet := none,
                            dPath := "", assets := [], transactions := [],
                            favorite := false, mtime := 0 })] "uuid1").cache
        "uuid1").error = some restoreErrorMessage := by
  have h := (restoreDeletedAccount_spec
      [("uuid1", some { uuid := "uuid1", address := "0xabc",
                        networkId := "Ethereum", wallet := none,
                        dPath := "", assets := [], transactions := [],
                        favorite := false, mtime := 0 })] "uuid1").2.2
      { uuid := "uuid1", address := "0xabc", networkId := "Ethereum",
        wallet := none, dPath := "", assets := [], transactions := [],
        favorite := false, mtime := 0 } (by decide) (by decide)
  exact ⟨by rw [h.1]; rfl, h.2⟩

/-- C7: delete-then-restore is a round trip: `deleteAccountFromCache` stores
the account in the restore cache under its uuid, deletes it from the account
store, drops its uuid from the dashboard accounts and dispatches
`deleteMembership` for its address and network; a subsequent
`restoreDeletedAccount` of its uuid dispatches `addAccounts` with exactly
the same account and clears the cache entry. -/
theorem deleteThenRestore_roundTrip (st : ProviderState) (account : IAccount) :
    cacheGet (deleteAccountFromCache st account).1.accountRestore
        account.uuid = some account ∧
    (deleteAccountFromCache st account).1.accounts =
      st.accounts.filter (fun a => a.uuid != account.uuid) ∧
    (deleteAccountFromCache st account).1.dashboardAccounts =
      st.dashboardAccounts.filter (fun u => u != account.uuid) ∧
    (deleteAccountFromCache st account).2 =
      [StoreAction.deleteMembership account.address account.networkId] ∧
    (restoreDeletedAccount
        (deleteAccountFromCache st account).1.accountRestore
        account.uuid).dispatched = [StoreAction.addAccounts [account]] ∧
    cacheGet
        (restoreDeletedAccount
          (deleteAccountFromCache st account).1.accountRestore
          account.uuid).cache account.uuid = none := by
  have hget : cacheGet (deleteAccountFromCache st account).1.accountRestore
      account.uuid = some account := by
    simp [deleteAccountFromCache, cacheGet, cacheSet, List.find?]
  refine ⟨hget, rfl, rfl, rfl, ?_, ?_⟩
  · simp [restoreDeletedAccount, hget]
  · simp [restoreDeletedAccount, hget, cacheGet, cacheSet, List.find?]

/-- C1: the account worker dispatches `requestAddresses`, calls the
session's `getMultipleAddresses` with exactly the given derivation paths,
dispatches `enqueueAccounts` with the derived accounts and only then
`processAccountsQueue`; over the whole discovery run, a balance is only
fetched for accounts enqueued strictly earlier. -/
theorem getAccountsWorker_order (session : HDWalletSession)
    (balanceOf : String → String) (dpaths : List ExtendedDPath)
    (asset : String) :
    getAccountsWorker session dpaths =
      [HDWalletEffect.putAction HDWalletAction.requestAddresses,
       HDWalletEffect.callGetMultipleAddresses dpaths,
       HDWalletEffect.putAction
         (HDWalletAction.enqueueAccounts
           (session.getMultipleAddresses dpaths)),
       HDWalletEffect.putAction HDWalletAction.processAccountsQueue] ∧
    (∀ (i : Nat) accs,
      (hdDiscoveryRun session balanceOf dpaths asset)[i]? =
        some (HDWalletEffect.callGetAssetBalance accs) →
      ∀ a ∈ accs, ∃ j : Nat, j < i ∧ ∃ l,
        (hdDiscoveryRun session balanceOf dpaths asset)[j]? =
          some (HDWalletEffect.putAction (HDWalletAction.enqueueAccounts l)) ∧
        a ∈ l) := by
  refine ⟨rfl, ?_⟩
  intro i accs h a ha
  match i with
  | 0 | 1 | 2 | 3 | 5 =>
    simp [hdDiscoveryRun, getAccountsWorker, accountsQueueWorker] at h
  | 4 =>
    refine ⟨2, by omega, session.getMultipleAddresses dpaths, rfl, ?_⟩
    have : session.getMultipleAddresses dpaths = accs := by
      simpa [hdDiscoveryRun, getAccountsWorker, accountsQueueWorker] using h
    rw [← this] at ha
    exact ha
  | n + 6 =>
    simp [hdDiscoveryRun, getAccountsWorker, accountsQueueWorker] at h

/-- C1 witness: a concrete one-account session; the balance fetch at
position 4 of the discovery run is covered by the enqueue at position 2. -/
theorem getAccountsWorker_order_witness :
    ∃ j, j < 4 ∧ ∃ l,
      (hdDiscoveryRun
        ⟨fun _ => [{ address := "0xabc",
                     pathItem := { baseDPath := { label := "Ledger (ETH)",
                                                  value := "m/44h/60h/0h",
                                                  offset := 0,
                                                  numOfAddresses := 1 },
                                   path := "m/44h/60h/0h/0", index := 0 },
                     balance := none }]⟩
        (fun _ => "0")
        [{ label := "Ledger (ETH)", value := "m/44h/60h/0h", offset := 0,
           numOfAddresses := 1 }] "ETH")[j]? =
        some (HDWalletEffect.putAction (HDWalletAction.enqueueAccounts l)) ∧
      { address := "0xabc",
        pathItem := { baseDPath := { label := "Ledger (ETH)",
                                     value := "m/44h/60h/0h", offset := 0,
                                     numOfAddresses := 1 },
                      path := "m/44h/60h/0h/0", index := 0 },
        balance := none } ∈ l :=
  (getAccountsWorker_order
      ⟨fun _ => [{ address := "0xabc",
                   pathItem := { baseDPath := { label := "Ledger (ETH)",
                                                value := "m/44h/60h/0h",
                                                offset := 0,
                                                numOfAddresses := 1 },
                                 path := "m/44h/60h/0h/0", index := 0 },
                   balance := none }]⟩
      (fun _ => "0")
      [{ label := "Ledger (ETH)", value := "m/44h/60h/0h", offset := 0,
         numOfAddresses := 1 }] "ETH").2 4
    [{ address := "0xabc",
       pathItem := { baseDPath := { label := "Ledger (ETH)",
                                    value := "m/44h/60h/0h", offset := 0,
                                    numOfAddresses := 1 },
                     path := "m/44h/60h/0h/0", index := 0 },
       balance := none }] rfl _ (by simp)

/-- C2: the connection worker selects the wallet implementation for the
walletId, initializes it with the first derivation path, passes the session
to setSession, dispatches `requestConnection` and finally
`requestConnectionSuccess`; every connection-success it dispatches carries
exactly the requested asset and network. -/
theorem requestConnectionWorker_order (walletId : String)
    (dpaths : List ExtendedDPath) (asset network : String) :
    requestConnectionWorker walletId dpaths asset network =
      [HDWalletEffect.callSelectWallet walletId,
       HDWalletEffect.callInitializeSession dpaths.head?,
       HDWalletEffect.callSetSession,
       HDWalletEffect.putAction HDWalletAction.requestConnection,
       HDWalletEffect.putAction
         (HDWalletAction.requestConnectionSuccess asset network)] ∧
    (∀ a n,
      HDWalletEffect.putAction (HDWalletAction.requestConnectionSuccess a n) ∈
        requestConnectionWorker walletId dpaths asset network →
      a = asset ∧ n = network) := by
  refine ⟨rfl, ?_⟩
  intro a n h
  simp [requestConnectionWorker] at h
  exact ⟨h.1, h.2⟩

/-- C2 witness: the connection-success dispatched for a concrete request
carries the requested asset and network. -/
theorem requestConnectionWorker_order_witness :
    ("ETH" : String) = "ETH" ∧ ("Ethereum" : String) = "Ethereum" :=
  (requestConnectionWorker_order "LEDGER_NANO_S_NEW"
      [{ label := "Ledger (ETH)", value := "m/44h/60h/0h", offset := 0,
         numOfAddresses := 1 }] "ETH" "Ethereum").2 "ETH" "Ethereum"
    (by simp [requestConnectionWorker])

/-- C9: `handleRehydrateSuccess` dispatches trackInit, fetchAssets,
fetchMemberships, startRatesPolling, fetchHistory, startTxPolling and
fetchENS, in that order, exactly when the action key is
`APP_PERSIST_CONFIG.key`; for any other key it dispatches nothing. -/
theorem handleRehydrateSuccess_spec (action : RehydrateAction) :
    (action.key = appPersistConfigKey →
      handleRehydrateSuccess action =
        [InitEffect.trackInit, InitEffect.fetchAssets,
         InitEffect.fetchMemberships, InitEffect.startRatesPolling,
         InitEffect.fetchHistory, InitEffect.startTxPolling,
         InitEffect.fetchENS]) ∧
    (action.key ≠ appPersistConfigKey → handleRehydrateSuccess action = []) := by
  constructor
  · intro h
    simp [handleRehydrateSuccess, h]
  · intro h
    simp [handleRehydrateSuccess, h]

/-- C9 witness: evaluated on the persist key and on a foreign key. -/
theorem handleRehydrateSuccess_spec_witness :
    handleRehydrateSuccess ⟨appPersistConfigKey⟩ =
      [InitEffect.trackInit, InitEffect.fetchAssets,
       InitEffect.fetchMemberships, InitEffect.startRatesPolling,
       InitEffect.fetchHistory, InitEffect.startTxPolling,
       InitEffect.fetchENS] ∧
    handleRehydrateSuccess ⟨"someOtherKey"⟩ = [] :=
  ⟨(handleRehydrateSuccess_spec ⟨appPersistConfigKey⟩).1 rfl,
   (handleRehydrateSuccess_spec ⟨"someOtherKey"⟩).2 (by decide)⟩

end MyCrypto
